import Mathlib

set_option linter.unusedVariables false

/-!
Verification of the `ecs-pipeline-deploy` deployment tool against its
natural-language specification.  The definitions below are a shallow
embedding of `ecs_pipeline_deploy/cli.py`:

* `parse_image` / `image_to_str` embed `ECSPipeline.parse_image` and
  `ECSPipeline.image_to_str` together with the anchored regular expression
  `IMAGE_PATTERN`.  The regex is embedded as an explicit backtracking
  matcher (`matchImage`) that mirrors the pattern's alternation order and
  greedy quantifiers; `\w` and `\d` are read as their ASCII classes.
* `get_containers`, `get_task_definition`, `modify_task_definition`,
  `save_task_definition`, `get_service_arn`, `wait_on_tasks` and `deploy`
  embed the correspondingly named `ECSPipeline` methods.  Python failure
  modes (raised `ValueError`, `exit_application` with a non-zero code)
  are modelled by `Option`/`none`, and external AWS responses are passed
  in as explicit arguments.
-/

/-- The `Image` namedtuple `Image(registry, name, tag)` of cli.py. -/
structure Image where
  registry : Option String
  name : String
  tag : String
deriving DecidableEq, Repr

/-- Character class `[\w.\-_]` of `IMAGE_PATTERN` (ASCII reading of
Python `\w`): the repository segment's character class. -/
def isRepoChar (c : Char) : Bool :=
  c.isAlpha || c.isDigit || decide (c = '_') || decide (c = '.') || decide (c = '-')

/-- Character class `[a-z0-9.\-_]` of `IMAGE_PATTERN`: the name segment's
(and of the lookahead's segments) character class. -/
def isNameChar (c : Char) : Bool :=
  c.isLower || c.isDigit || decide (c = '.') || decide (c = '-') || decide (c = '_')

/-- The tag's character class `[\w.\-_]`, identical to the repository class. -/
def isTagChar (c : Char) : Bool := isRepoChar c

/-- Backtracking over the length consumed by a greedy `+`/`{1,n}` item:
try the lengths `n, n-1, ..., 1` in this order and keep the first success,
exactly as the regex engine shrinks a greedy match. -/
def tryLens {α : Type} (f : Nat → Option α) : Nat → Option α
  | 0 => none
  | n + 1 =>
    match f (n + 1) with
    | some r => some r
    | none => tryLens f n

/-- Match groups of `IMAGE_PATTERN`: (repository group or `none` when the
empty alternative was taken, name group, optional tag group). -/
abbrev ImageGroups := Option (List Char) × List Char × Option (List Char)

/-- The tail pattern `(?::(?P<tag>[\w.\-_]{1,127})|)$`: preferring the
`:tag` alternative, a match reaching the end of input exists iff the rest
is empty (no tag group) or is `':'` followed by 1..127 tag characters. -/
def matchTagEnd : List Char → Option (Option (List Char))
  | [] => some none
  | c :: t =>
    if c = ':' ∧ t ≠ [] ∧ t.all isTagChar = true ∧ t.length ≤ 127 then
      some (some t)
    else none

/-- One backtracking attempt of the second name segment `/[a-z0-9.\-_]+`:
consume `'/'` (already stripped by the caller) and `len2` name characters
of `t`, then require the tag/end pattern on the remainder. -/
def secondSegAttempt (seg1 t : List Char) (len2 : Nat) : Option (List Char × Option (List Char)) :=
  (matchTagEnd (t.drop len2)).map (fun tg => (seg1 ++ '/' :: t.take len2, tg))

/-- The optional second name segment `(?:/[a-z0-9.\-_]+|)` with the
slash alternative preferred and a greedy inner `+`. -/
def trySecondSeg (seg1 : List Char) (rest : List Char) : Option (List Char × Option (List Char)) :=
  match rest with
  | c :: t =>
    if c = '/' then tryLens (secondSegAttempt seg1 t) (t.takeWhile isNameChar).length
    else none
  | [] => none

/-- One backtracking attempt of the name pattern with `len1` characters in
its greedy first segment: try the `/second-segment` alternative first,
then the empty alternative followed by the tag/end pattern. -/
def nameAttempt (rest : List Char) (len1 : Nat) : Option (List Char × Option (List Char)) :=
  match trySecondSeg (rest.take len1) (rest.drop len1) with
  | some r => some r
  | none => (matchTagEnd (rest.drop len1)).map (fun tg => (rest.take len1, tg))

/-- The name-and-tag pattern `(?P<name>[a-z0-9.\-_]+(?:/[a-z0-9.\-_]+|))`
followed by the tag/end pattern, with the first `+` greedy. -/
def matchName (rest : List Char) : Option (List Char × Option (List Char)) :=
  tryLens (nameAttempt rest) (rest.takeWhile isNameChar).length

/-- The lookahead `(?=/[a-z0-9._-]+/[a-z0-9._-]+)`: the rest must start
with `'/'`, a nonempty run of name characters, another `'/'` and at least
one more name character (a prefix match suffices). -/
def lookaheadTwoSegs (rest : List Char) : Bool :=
  match rest with
  | c :: t =>
    if c = '/' then
      match t.takeWhile isNameChar, t.dropWhile isNameChar with
      | _ :: _, d :: e :: _ => decide (d = '/') && isNameChar e
      | _, _ => false
    else false
  | [] => false

/-- The optional-slash-then-name part `(?:/|)(?P<name>...)...` of the
pattern, preferring to consume a leading `'/'` and backtracking to the
empty alternative if the name fails afterwards. -/
def matchAfterRepo (rest : List Char) : Option (List Char × Option (List Char)) :=
  match rest with
  | c :: t =>
    if c = '/' then
      match matchName t with
      | some r => some r
      | none => matchName (c :: t)
    else matchName (c :: t)
  | [] => matchName []

/-- One attempt of the optional port `(?::\d+|)`'s digit run at length
`dlen` (the repository's `:port` sub-alternative), followed by the
lookahead and the rest of the pattern. -/
def portAttempt (repo t : List Char) (dlen : Nat) : Option ImageGroups :=
  if lookaheadTwoSegs (t.drop dlen) then
    (matchAfterRepo (t.drop dlen)).map (fun r => (some (repo ++ ':' :: t.take dlen), r.1, r.2))
  else none

/-- The repository's `:port` sub-alternative `(?::\d+...)` at repository
length `len`: requires a `':'` then a greedy nonempty digit run. -/
def repoPortAlt (s : List Char) (len : Nat) : Option ImageGroups :=
  match s.drop len with
  | c :: t =>
    if c = ':' then tryLens (portAttempt (s.take len) t) (t.takeWhile Char.isDigit).length
    else none
  | [] => none

/-- One attempt of the nonempty repository alternative with `len`
characters in the greedy `[\w.\-_]+` run: `:port` sub-alternative first,
then the empty sub-alternative, both guarded by the two-segment lookahead. -/
def repoAttempt (s : List Char) (len : Nat) : Option ImageGroups :=
  match repoPortAlt s len with
  | some r => some r
  | none =>
    if lookaheadTwoSegs (s.drop len) then
      (matchAfterRepo (s.drop len)).map (fun r => (some (s.take len), r.1, r.2))
    else none

/-- The full anchored `IMAGE_PATTERN` match: the nonempty repository
alternative (greedy run, backtracking) first, then the empty repository
alternative. -/
def matchImage (s : List Char) : Option ImageGroups :=
  match tryLens (repoAttempt s) (s.takeWhile isRepoChar).length with
  | some r => some r
  | none => (matchAfterRepo s).map (fun r => (none, r.1, r.2))

/-- `ECSPipeline.parse_image`: match `IMAGE_PATTERN`, turn an empty
repository group into `None` and default an absent tag to `"latest"`.
A failed match (Python: `ValueError`, reported by the CLI as
"Malformed image") is `none`. -/
def parse_image (s : String) : Option Image :=
  (matchImage s.data).map (fun r =>
    { registry := r.1.map List.asString
      name := r.2.1.asString
      tag := (r.2.2.map List.asString).getD "latest" })

/-- `ECSPipeline.image_to_str`: render the namedtuple back to a string;
Python's truthiness test `if image.registry:` is false for both `None`
and the empty string. -/
def image_to_str (image : Image) : String :=
  match image.registry with
  | some r =>
    if r = "" then image.name ++ ":" ++ image.tag
    else r ++ "/" ++ image.name ++ ":" ++ image.tag
  | none => image.name ++ ":" ++ image.tag

/-- Strict `<` on strings as Python compares them: lexicographic on
code points. -/
def charsLt : List Char → List Char → Bool
  | [], [] => false
  | [], _ :: _ => true
  | _ :: _, [] => false
  | a :: as, b :: bs => if a < b then true else if b < a then false else charsLt as bs

/-- Comparison of the optional registry inside the `Image` namedtuple on
registry-homogeneous lists (both `None`, or both strings).  A mixed
`None`/`str` comparison raises `TypeError` in Python 3; that crash is
modelled by the guard in `sortImagesPy`, which never consults this
function on a mixed pair, so the value returned in the two mixed cases
below is dead code and immaterial. -/
def optRegistryLt : Option String → Option String → Bool
  | none, none => false
  | none, some _ => true
  | some _, none => false
  | some a, some b => charsLt a.data b.data

/-- Python's `<` on the `Image` namedtuple: lexicographic over
(registry, name, tag). -/
def imageLt (a b : Image) : Bool :=
  if a.registry = b.registry then
    if a.name = b.name then charsLt a.tag.data b.tag.data
    else charsLt a.name.data b.name.data
  else optRegistryLt a.registry b.registry

/-- Nonstrict companion of `imageLt`, used for a stable sort. -/
def imageLe (a b : Image) : Bool := !(imageLt b a)

/-- Stable insertion into a sorted list (Python's `sorted` is stable;
a stable sort is determined by the total preorder, so insertion sort
reproduces it). -/
def orderedInsertImg (x : Image) : List Image → List Image
  | [] => [x]
  | y :: ys => if imageLe x y then x :: y :: ys else y :: orderedInsertImg x ys

/-- Python's `sorted` on a registry-homogeneous list of `Image`
namedtuples (all comparisons it performs are then well-defined). -/
def sortImages : List Image → List Image
  | [] => []
  | x :: xs => orderedInsertImg x (sortImages xs)

/-- Whether a parsed container list mixes images with and without a
registry.  Python 3 cannot order `None` against a string: any direct
comparison of such a pair raises `TypeError`. -/
def mixedRegistries (l : List Image) : Bool :=
  (l.any fun img => img.registry.isNone) && (l.any fun img => img.registry.isSome)

/-- Python 3 `sorted` on the parsed `Image` namedtuples as
`_get_containers` calls it: when the list contains both an image without
a registry and one with a registry, the sort necessarily compares such a
pair and raises `TypeError` (`'<' not supported between instances of
'NoneType' and 'str'`), crashing the program; otherwise it returns the
stable ascending order.  `none` models the uncaught exception. -/
def sortImagesPy (l : List Image) : Option (List Image) :=
  if mixedRegistries l then none else some (sortImages l)

/-- One container definition of a task definition.  `image` is the
`image` string, `logTag` is the `logConfiguration.options.tag` value when
present, and `extra` stands for all remaining fields of the container
definition, which `_modify_task_definition` never touches. -/
structure ContainerDef where
  image : String
  logTag : Option String
  extra : List (String × String)
deriving DecidableEq, Repr

/-- The parts of a fetched task definition used by the resolver and the
transformer. -/
structure TaskDef where
  family : String
  taskDefinitionArn : String
  containerDefinitions : List ContainerDef
deriving DecidableEq, Repr

/-- `ECSPipeline._get_containers`: parse every container's image string
(in definition order) and return the parsed namedtuples sorted.  `none`
models the two uncaught exceptions this method can raise: `ValueError`
when a container image fails to parse, and `TypeError` when
`sorted(containers)` compares a `None` registry against a string one
(mixed-registry container lists) — in either case the program crashes
before producing any result. -/
def get_containers (td : TaskDef) : Option (List Image) :=
  (td.containerDefinitions.mapM (fun cd => parse_image cd.image)).bind sortImagesPy

/-- Python's `image in containers` membership test (structural equality
of the namedtuples). -/
def imageMem (target : Image) : List Image → Bool
  | [] => false
  | img :: rest => if img = target then true else imageMem target rest

/-- The four outcomes of `ECSPipeline._get_task_definition`:
return the current ARN unchanged (`reuse`), re-register the current
definition (`registerModified`), exit with code 2 (`conflict`), or
register the transformed definition (`registerNew`). -/
inductive Decision where
  | reuse (arn : String)
  | registerModified
  | conflict
  | registerNew
deriving DecidableEq, Repr

/-- `ECSPipeline._get_task_definition`'s branch structure: which of the
four outcomes is taken, given the current task definition, the
`--force`/`--redeploy` flags and the target image.  `none` models the
uncaught exceptions propagating out of `_get_containers` (a container
image that fails to parse, or the `TypeError` of sorting a
mixed-registry container list): the program crashes and no decision is
produced. -/
def get_task_definition (td : TaskDef) (force redeploy : Bool) (target : Image) : Option Decision :=
  (get_containers td).map (fun images =>
    if imageMem target images then
      if redeploy then Decision.reuse td.taskDefinitionArn
      else if force then Decision.registerModified
      else Decision.conflict
    else Decision.registerNew)

/-- The offset search of `_modify_task_definition`'s loop: the first
element of the (sorted) image list whose registry and name equal the
target's, together with its offset in that list. -/
def find_image_offset : List Image → Image → Option (Nat × Image)
  | [], _ => none
  | img :: rest, target =>
    if img.registry = target.registry ∧ img.name = target.name then some (0, img)
    else (find_image_offset rest target).map (fun p => (p.1 + 1, p.2))

/-- In-place update of `containerDefinitions[offset]`. -/
def modifyAt (f : ContainerDef → ContainerDef) : Nat → List ContainerDef → List ContainerDef
  | _, [] => []
  | 0, c :: rest => f c :: rest
  | n + 1, c :: rest => c :: modifyAt f n rest

/-- Python `str.replace` on character lists for a nonempty pattern:
replace every non-overlapping occurrence left to right.  `fuel` bounds
the recursion and is adequate whenever `fuel ≥ s.length`. -/
def pyReplaceFuel (pat rep : List Char) : Nat → List Char → List Char
  | _, [] => []
  | 0, s => s
  | n + 1, c :: rest =>
    if pat.isPrefixOf (c :: rest) then rep ++ pyReplaceFuel pat rep n ((c :: rest).drop pat.length)
    else c :: pyReplaceFuel pat rep n rest

/-- Python `str.replace(s, pat, rep)`; an empty pattern inserts `rep`
at every position, as in Python. -/
def str_replace (s pat rep : String) : String :=
  if pat.data = [] then
    (rep.data ++ (s.data.map (fun c => c :: rep.data)).flatten).asString
  else
    (pyReplaceFuel pat.data rep.data s.data.length s.data).asString

/-- `ECSPipeline._modify_task_definition`: walk `enumerate(sorted
containers)`, find the first parsed image whose registry and name match
the target, and write the rendered target image (and the substituted
log tag, when the `tag` option is present) into
`containerDefinitions[offset]` — the offset taken from the *sorted*
list.  `none` models the two `ValueError` exits (unparsable container
image, or no matching image found). -/
def modify_task_definition (td : TaskDef) (target : Image) : Option TaskDef :=
  match get_containers td with
  | none => none
  | some images =>
    match find_image_offset images target with
    | none => none
    | some (offset, img) =>
      some { td with
        containerDefinitions :=
          modifyAt (fun cd =>
              { cd with
                image := image_to_str target
                logTag := cd.logTag.map (fun t => str_replace t img.tag target.tag) })
            offset td.containerDefinitions }

/-- The six server-assigned keys stripped by `_save_task_definition`. -/
def server_assigned_fields : List String :=
  ["compatibilities", "requiresAttributes", "requiresCompatibilities",
   "revision", "status", "taskDefinitionArn"]

/-- `ECSPipeline._save_task_definition`'s request payload: the input
definition, viewed as a field mapping, with the six server-assigned
fields deleted; everything else is forwarded to
`register_task_definition` unchanged. -/
def save_task_definition (definition : List (String × String)) : List (String × String) :=
  definition.filter (fun kv => decide (kv.1 ∉ server_assigned_fields))

/-- `arn.split('/')` on character lists (Python `str.split` with an
explicit separator keeps empty pieces). -/
def splitSlash : List Char → List (List Char)
  | [] => [[]]
  | c :: rest =>
    if c = '/' then [] :: splitSlash rest
    else
      match splitSlash rest with
      | [] => [[c]]
      | g :: gs => (c :: g) :: gs

/-- `arn.split('/')[-1]`. -/
def last_component (arn : String) : String :=
  ((splitSlash arn.data).getLastD []).asString

/-- Stable insertion for Python's `sorted` on strings. -/
def orderedInsertStr (x : String) : List String → List String
  | [] => [x]
  | y :: ys => if !(charsLt y.data x.data) then x :: y :: ys else y :: orderedInsertStr x ys

/-- Python's `sorted` on a list of strings. -/
def sortStrings : List String → List String
  | [] => []
  | x :: xs => orderedInsertStr x (sortStrings xs)

/-- `ECSPipeline._get_service_arn` over the ARNs returned by
`_services()` (which sorts them): return the first ARN whose final
`/`-separated component equals the requested service name; `none`
models `exit_application('Service ... not found', 1)`. -/
def get_service_arn (arns : List String) (service : String) : Option String :=
  (sortStrings arns).find? (fun arn => decide (last_component arn = service))

/-- Outcome of `ECSPipeline.deploy` as a function of the
`update_service` response. -/
inductive DeployOutcome where
  | confirmed (waited : Bool)
  | unconfirmedSilent
deriving DecidableEq, Repr

/-- `ECSPipeline.deploy`'s handling of the `update_service` response:
when the echoed `taskDefinition` equals the requested one the run logs
success and (when `--wait` is set) waits; otherwise the method simply
returns — no exception, no retry — and the process exits with code 0.
The second component is the process exit code. -/
def deploy (requestedArn responseArn : String) (wait : Bool) : DeployOutcome × Nat :=
  if responseArn = requestedArn then (DeployOutcome.confirmed wait, 0)
  else (DeployOutcome.unconfirmedSilent, 0)

/-- The convergence test of one iteration of `_wait_on_tasks`: the count
of running tasks on the target definition equals the desired quantity
and, when `--only-new` is set, so does the total number of running
tasks.  An observation is the `(taskArn, taskDefinitionArn)` list
returned by `_list_running_tasks`. -/
def rolloutDone (target : String) (desired : Nat) (onlyNew : Bool)
    (tasks : List (String × String)) : Bool :=
  decide (tasks.countP (fun p => decide (p.2 = target)) = desired)
    && (!onlyNew || decide (tasks.length = desired))

/-- `ECSPipeline._wait_on_tasks` over a sequence of poll observations:
poll, break when `rolloutDone`, otherwise sleep `delay` and poll again.
The result is the total time slept before the loop breaks (`delay` per
non-final observation), `none` when the given observations never let it
break. -/
def wait_on_tasks (target : String) (desired : Nat) (onlyNew : Bool) (delay : Nat) :
    List (List (String × String)) → Option Nat
  | [] => none
  | tasks :: rest =>
    if rolloutDone target desired onlyNew tasks then some 0
    else (wait_on_tasks target desired onlyNew delay rest).map (fun t => t + delay)

/-- The `(?:/|)` part written by `build_image_data` for an optional
port. -/
def portPart : Option (List Char) → List Char
  | some p => ':' :: p
  | none => []

/-- The optional second name segment as written in an image string. -/
def seg2Part : Option (List Char) → List Char
  | some s => '/' :: s
  | none => []

/-- The optional `:tag` suffix as written in an image string. -/
def tagPartOf : Option (List Char) → List Char
  | some t => ':' :: t
  | none => []

/-- A canonical image string assembled from its grammatical parts:
`[host[:port]/]name1[/name2][:tag]`. -/
def build_image_data (host port : Option (List Char)) (seg1 : List Char)
    (seg2 : Option (List Char)) (tag : Option (List Char)) : List Char :=
  (match host with
   | some h => h ++ portPart port ++ ['/']
   | none => []) ++ seg1 ++ seg2Part seg2 ++ tagPartOf tag

/-- Concrete task definition used to exhibit the transformer's
sorted-offset slip (claim C2). -/
def tdC2 : TaskDef :=
  { family := "app-family"
    taskDefinitionArn := "arn:aws:ecs:us-east-1:1:task-definition/app-family:7"
    containerDefinitions :=
      [ { image := "zeb:1.0", logTag := none, extra := [("name", "sidecar")] }
      , { image := "app:1.0", logTag := none, extra := [("name", "main")] } ] }

/-- Concrete task definition used to exhibit the log-tag consequence of
the sorted-offset slip (claim C8). -/
def tdC8 : TaskDef :=
  { family := "app-family"
    taskDefinitionArn := "arn:aws:ecs:us-east-1:1:task-definition/app-family:3"
    containerDefinitions :=
      [ { image := "zeb:1.0", logTag := none, extra := [] }
      , { image := "app:1.0", logTag := some "app-1.0", extra := [] } ] }

/-- Concrete single-container task definition matching the spec's
resolver scenarios. -/
def tdResolver : TaskDef :=
  { family := "app-family"
    taskDefinitionArn := "arn:aws:ecs:us-east-1:1:task-definition/app-family:3"
    containerDefinitions := [ { image := "app:1.0", logTag := none, extra := [] } ] }

/-- Concrete task definition whose containers parse to a mixed-registry
image list: one image without a registry and one with a registry.
Sorting its parsed containers raises `TypeError` in Python 3, so the
resolver crashes on it before reaching any decision. -/
def tdMixed : TaskDef :=
  { family := "app-family"
    taskDefinitionArn := "arn:aws:ecs:us-east-1:1:task-definition/app-family:9"
    containerDefinitions :=
      [ { image := "app:1.0", logTag := none, extra := [] }
      , { image := "docker.example.io:8000/ns/app:1.0", logTag := none, extra := [] } ] }

/-- Concrete registered task definition, as a field mapping, for the
registrar claim's witness. -/
def tdFieldsC7 : List (String × String) :=
  [("family", "app-family"), ("containerDefinitions", "..."),
   ("revision", "3"), ("status", "ACTIVE"),
   ("taskDefinitionArn", "arn:aws:ecs:us-east-1:1:task-definition/app-family:3"),
   ("compatibilities", "EC2"), ("requiresAttributes", "..."),
   ("requiresCompatibilities", "EC2"), ("cpu", "256")]

theorem mem_orderedInsertImg (x a : Image) (l : List Image) :
    a ∈ orderedInsertImg x l ↔ a = x ∨ a ∈ l := by
  induction l with
  | nil => simp [orderedInsertImg]
  | cons y ys ih =>
    by_cases h : imageLe x y = true
    · simp [orderedInsertImg, h]
    · simp only [orderedInsertImg, if_neg h, List.mem_cons, ih]
      tauto

theorem mem_sortImages (a : Image) (l : List Image) : a ∈ sortImages l ↔ a ∈ l := by
  induction l with
  | nil => simp [sortImages]
  | cons x xs ih => simp [sortImages, mem_orderedInsertImg, ih]

theorem imageMem_iff (t : Image) (l : List Image) : imageMem t l = true ↔ t ∈ l := by
  induction l with
  | nil => simp [imageMem]
  | cons x xs ih =>
    by_cases h : x = t
    · simp [imageMem, h]
    · simp only [imageMem, if_neg h, ih, List.mem_cons]
      constructor
      · exact Or.inr
      · rintro (rfl | hm)
        · exact absurd rfl h
        · exact hm

theorem mem_orderedInsertStr (x a : String) (l : List String) :
    a ∈ orderedInsertStr x l ↔ a = x ∨ a ∈ l := by
  induction l with
  | nil => simp [orderedInsertStr]
  | cons y ys ih =>
    by_cases h : (!(charsLt y.data x.data)) = true
    · simp [orderedInsertStr, h]
    · simp only [orderedInsertStr, if_neg h, List.mem_cons, ih]
      tauto

theorem mem_sortStrings (a : String) (l : List String) : a ∈ sortStrings l ↔ a ∈ l := by
  induction l with
  | nil => simp [sortStrings]
  | cons x xs ih => simp [sortStrings, mem_orderedInsertStr, ih]

theorem mixedRegistries_false (l : List Image)
    (h : (∀ img ∈ l, img.registry = none) ∨ (∀ img ∈ l, img.registry ≠ none)) :
    mixedRegistries l = false := by
  unfold mixedRegistries
  rcases h with h | h
  · have hs : (l.any fun img => img.registry.isSome) = false := by
      rw [List.any_eq_false]
      intro img hm hcon
      rw [h img hm] at hcon
      simp at hcon
    rw [hs, Bool.and_false]
  · have hn : (l.any fun img => img.registry.isNone) = false := by
      rw [List.any_eq_false]
      intro img hm hcon
      exact h img hm (Option.isNone_iff_eq_none.mp hcon)
    rw [hn, Bool.false_and]

/-- C1 counterexample: on a current task definition whose containers
parse to a mixed-registry list (`app:1.0` without a registry,
`docker.example.io:8000/ns/app:1.0` with one) the resolver produces none
of the four decisions: `sorted(containers)` in `_get_containers` raises
`TypeError` (`None < str`) and the program crashes — here with the full
target reference present and `--redeploy` set, where the claim demands
`Reuse`. -/
theorem resolver_mixed_registry_counterexample :
    get_task_definition tdMixed false true ⟨none, "app", "1.0"⟩ = none := by
  decide

/-- C1 amended: provided the current containers' parsed references are
registry-homogeneous (all without a registry, or all with one) — on a
mixed list `_get_containers` crashes in `sorted()` with `TypeError`
before any decision is reached — the resolver takes exactly the
decision dictated by presence and flags: when the full target reference
(registry, name and tag) occurs among the parsed current containers,
`--redeploy` yields `Reuse` of the current ARN, otherwise `--force`
yields `RegisterModified`, otherwise `Conflict` (exit code 2); when the
full reference is absent — a registry+name match with a different tag is
not presence, since presence is structural equality of the whole
namedtuple — the decision is `RegisterNew` regardless of flags. -/
theorem resolver_decision_cases (td : TaskDef) (force redeploy : Bool) (target : Image)
    (parsed : List Image)
    (hp : td.containerDefinitions.mapM (fun cd => parse_image cd.image) = some parsed)
    (hreg : (∀ img ∈ parsed, img.registry = none) ∨ (∀ img ∈ parsed, img.registry ≠ none)) :
    ((∃ img ∈ parsed, img.registry = target.registry ∧ img.name = target.name ∧
        img.tag = target.tag) →
      get_task_definition td force redeploy target =
        some (if redeploy then Decision.reuse td.taskDefinitionArn
              else if force then Decision.registerModified
              else Decision.conflict))
    ∧ ((¬ ∃ img ∈ parsed, img.registry = target.registry ∧ img.name = target.name ∧
        img.tag = target.tag) →
      get_task_definition td force redeploy target = some Decision.registerNew) := by
  have hgc : get_containers td = some (sortImages parsed) := by
    unfold get_containers
    rw [hp]
    show sortImagesPy parsed = some (sortImages parsed)
    simp [sortImagesPy, mixedRegistries_false parsed hreg]
  have hiff : (∃ img ∈ parsed, img.registry = target.registry ∧ img.name = target.name ∧
      img.tag = target.tag) ↔ target ∈ parsed := by
    constructor
    · rintro ⟨img, hm, h1, h2, h3⟩
      have : img = target := by
        cases img
        cases target
        simp_all
      exact this ▸ hm
    · intro h
      exact ⟨target, h, rfl, rfl, rfl⟩
  constructor
  · intro hpres
    have hb : imageMem target (sortImages parsed) = true :=
      (imageMem_iff _ _).mpr ((mem_sortImages _ _).mpr (hiff.mp hpres))
    unfold get_task_definition
    rw [hgc]
    simp [hb]
  · intro habs
    have hnm : target ∉ sortImages parsed := fun h =>
      habs (hiff.mpr ((mem_sortImages _ _).mp h))
    have hb : imageMem target (sortImages parsed) = false := by
      cases h : imageMem target (sortImages parsed)
      · rfl
      · exact absurd ((imageMem_iff _ _).mp h) hnm
    unfold get_task_definition
    rw [hgc]
    simp [hb]

theorem resolver_decision_cases_witness :
    get_task_definition tdResolver false false ⟨none, "app", "1.0"⟩ = some Decision.conflict
    ∧ get_task_definition tdResolver false false ⟨none, "app", "2.0"⟩ =
        some Decision.registerNew := by
  have h1 := resolver_decision_cases tdResolver false false ⟨none, "app", "1.0"⟩
    [⟨none, "app", "1.0"⟩] (by decide) (Or.inl (by decide))
  have h2 := resolver_decision_cases tdResolver false false ⟨none, "app", "2.0"⟩
    [⟨none, "app", "1.0"⟩] (by decide) (Or.inl (by decide))
  exact ⟨h1.1 ⟨⟨none, "app", "1.0"⟩, by simp, rfl, rfl, rfl⟩, h2.2 (by decide)⟩

/-- C10 counterexample: with both `--redeploy` and `--force` set and the
full target reference present among the parsed current containers, the
resolver does NOT return `Reuse` when the parsed list mixes images with
and without a registry: `sorted(containers)` raises `TypeError` first
and the program crashes with no decision. -/
theorem redeploy_mixed_registry_counterexample :
    get_task_definition tdMixed true true ⟨none, "app", "1.0"⟩ = none := by
  decide

/-- C10 amended: when the full target reference is present among the
current containers, the parsed references are registry-homogeneous (on
a mixed list the sort in `_get_containers` raises `TypeError` before any
decision), and both `--redeploy` and `--force` are set, the resolver
returns `Reuse` of the current task definition ARN — the `redeploy`
branch is tested first, so it takes priority over `force` and no new
revision is registered. -/
theorem redeploy_over_force (td : TaskDef) (target : Image) (parsed : List Image)
    (hp : td.containerDefinitions.mapM (fun cd => parse_image cd.image) = some parsed)
    (hreg : (∀ img ∈ parsed, img.registry = none) ∨ (∀ img ∈ parsed, img.registry ≠ none))
    (hm : target ∈ parsed) :
    get_task_definition td true true target = some (Decision.reuse td.taskDefinitionArn) := by
  have hgc : get_containers td = some (sortImages parsed) := by
    unfold get_containers
    rw [hp]
    show sortImagesPy parsed = some (sortImages parsed)
    simp [sortImagesPy, mixedRegistries_false parsed hreg]
  have hb : imageMem target (sortImages parsed) = true :=
    (imageMem_iff _ _).mpr ((mem_sortImages _ _).mpr hm)
  unfold get_task_definition
  rw [hgc]
  simp [hb]

theorem redeploy_over_force_witness :
    get_task_definition tdResolver true true ⟨none, "app", "1.0"⟩ =
      some (Decision.reuse "arn:aws:ecs:us-east-1:1:task-definition/app-family:3") :=
  redeploy_over_force tdResolver ⟨none, "app", "1.0"⟩ [⟨none, "app", "1.0"⟩]
    (by decide) (Or.inl (by decide)) (by decide)

/-- C2 (code bug): the transformer computes the match offset by
enumerating the SORTED parsed container list but writes through that
offset into the unsorted `containerDefinitions`.  Here the only
container whose (registry, name) matches the target `(None, app, 2.0)`
is `containerDefinitions[1]` (`app:1.0`, first and only match in
definition order), yet the code rewrites `containerDefinitions[0]` (the
unrelated `zeb:1.0` container) to `app:2.0` and leaves the matching
container untouched. -/
theorem transformer_sorted_offset_bug :
    modify_task_definition tdC2 ⟨none, "app", "2.0"⟩ =
      some { family := "app-family"
             taskDefinitionArn := "arn:aws:ecs:us-east-1:1:task-definition/app-family:7"
             containerDefinitions :=
               [ { image := "app:2.0", logTag := none, extra := [("name", "sidecar")] }
               , { image := "app:1.0", logTag := none, extra := [("name", "main")] } ] } := by
  decide

/-- C8 (code bug): when containers are not already in sorted order, the
container whose log configuration carries the `tag` option — the matched
`app` container, `containerDefinitions[1]` — is left entirely
unmodified: its log tag stays `app-1.0` instead of becoming `app-2.0`,
because the image and log-tag rewrite lands on `containerDefinitions[0]`
(the sorted-list offset of the match). -/
theorem log_tag_wrong_container_bug :
    modify_task_definition tdC8 ⟨none, "app", "2.0"⟩ =
      some { family := "app-family"
             taskDefinitionArn := "arn:aws:ecs:us-east-1:1:task-definition/app-family:3"
             containerDefinitions :=
               [ { image := "app:2.0", logTag := none, extra := [] }
               , { image := "app:1.0", logTag := some "app-1.0", extra := [] } ] } := by
  decide

/-- C4 counterexample: a deployment run in which `update_service` echoes
a different task definition than requested does NOT fail — `deploy`
falls through the confirmation `if`, performs no retry and no wait, and
the process exits with code 0; there is no `UpdateNotConfirmed` error in
the code. -/
theorem update_mismatch_counterexample :
    deploy "arn:aws:ecs:us-east-1:1:task-definition/app-family:8"
        "arn:aws:ecs:us-east-1:1:task-definition/app-family:7" false =
      (DeployOutcome.unconfirmedSilent, 0) := by
  decide

/-- C4 amended: when the `update_service` response echoes the requested
definition the run proceeds to the waiting/done path; when it echoes a
different definition the orchestrator silently skips the success path
(no wait, no completion log) and still exits 0 — a silent no-op, not a
surfaced fatal error. -/
theorem update_mismatch_silent (requestedArn responseArn : String) (wait : Bool) :
    (responseArn = requestedArn →
      deploy requestedArn responseArn wait = (DeployOutcome.confirmed wait, 0))
    ∧ (responseArn ≠ requestedArn →
      deploy requestedArn responseArn wait = (DeployOutcome.unconfirmedSilent, 0)) := by
  constructor
  · intro h
    simp [deploy, h]
  · intro h
    simp [deploy, h]

theorem update_mismatch_silent_witness :
    deploy "arn:aws:ecs:us-east-1:1:task-definition/app-family:8"
        "arn:aws:ecs:us-east-1:1:task-definition/app-family:8" true =
      (DeployOutcome.confirmed true, 0) :=
  (update_mismatch_silent "arn:aws:ecs:us-east-1:1:task-definition/app-family:8"
    "arn:aws:ecs:us-east-1:1:task-definition/app-family:8" true).1 rfl

/-- C5 counterexample: the cluster contains a service whose name
`app-web` has the requested name `app` as a prefix, yet service
resolution fails (`ServiceNotFound`, exit 1) — `_get_service_arn`
performs no prefix matching. -/
theorem service_prefix_counterexample :
    get_service_arn ["arn:aws:ecs:us-east-1:1:service/app-web"] "app" = none := by
  decide

/-- C5 amended: service resolution returns an ARN (the first in sorted
order) whose final `/`-separated component equals the requested name
EXACTLY, and fails with `ServiceNotFound` precisely when no listed ARN
matches exactly; prefix matches are not honoured. -/
theorem service_exact_match (arns : List String) (service : String) :
    (∀ arn, get_service_arn arns service = some arn →
      arn ∈ arns ∧ last_component arn = service)
    ∧ (get_service_arn arns service = none ↔
        ∀ arn ∈ arns, last_component arn ≠ service) := by
  constructor
  · intro arn h
    refine ⟨(mem_sortStrings _ _).mp (List.mem_of_find?_eq_some h), ?_⟩
    have := List.find?_some h
    simpa using this
  · unfold get_service_arn
    rw [List.find?_eq_none]
    constructor
    · intro h arn hm
      have := h arn ((mem_sortStrings _ _).mpr hm)
      simpa using this
    · intro h arn hm
      have := h arn ((mem_sortStrings _ _).mp hm)
      simpa using this

theorem service_exact_match_witness :
    get_service_arn ["arn:aws:ecs:us-east-1:1:service/app-web"] "app" = none :=
  (service_exact_match ["arn:aws:ecs:us-east-1:1:service/app-web"] "app").2.mpr (by decide)

/-- C7: the registrar's request payload never contains any of the six
server-assigned fields (`compatibilities`, `requiresAttributes`,
`requiresCompatibilities`, `revision`, `status`, `taskDefinitionArn`),
every other field of the input definition is forwarded, and every
forwarded field comes unchanged from the input. -/
theorem registrar_strips_server_fields (d : List (String × String)) :
    (∀ kv ∈ save_task_definition d, kv.1 ∉ server_assigned_fields)
    ∧ (∀ kv ∈ d, kv.1 ∉ server_assigned_fields → kv ∈ save_task_definition d)
    ∧ (∀ kv ∈ save_task_definition d, kv ∈ d) := by
  refine ⟨?_, ?_, ?_⟩
  · intro kv h
    have := (List.mem_filter.mp h).2
    simpa using this
  · intro kv h hnot
    exact List.mem_filter.mpr ⟨h, by simpa using hnot⟩
  · intro kv h
    exact (List.mem_filter.mp h).1

theorem registrar_strips_server_fields_witness :
    ("family", "app-family") ∈ save_task_definition tdFieldsC7
    ∧ ("revision", "3") ∉ save_task_definition tdFieldsC7 := by
  refine ⟨(registrar_strips_server_fields tdFieldsC7).2.1 ("family", "app-family")
      (by decide) (by decide), fun h => ?_⟩
  exact absurd ((registrar_strips_server_fields tdFieldsC7).1 ("revision", "3") h)
    (by decide)

theorem isNameChar_not_colon (c : Char) (h : isNameChar c = true) : c ≠ ':' := by
  rintro rfl
  exact absurd h (by decide)

theorem isNameChar_not_slash (c : Char) (h : isNameChar c = true) : c ≠ '/' := by
  rintro rfl
  exact absurd h (by decide)

theorem isRepoChar_not_colon (c : Char) (h : isRepoChar c = true) : c ≠ ':' := by
  rintro rfl
  exact absurd h (by decide)

theorem isRepoChar_not_slash (c : Char) (h : isRepoChar c = true) : c ≠ '/' := by
  rintro rfl
  exact absurd h (by decide)

theorem isTagChar_not_colon (c : Char) (h : isTagChar c = true) : c ≠ ':' :=
  isRepoChar_not_colon c h

theorem isTagChar_not_slash (c : Char) (h : isTagChar c = true) : c ≠ '/' :=
  isRepoChar_not_slash c h

theorem isDigit_not_slash (c : Char) (h : c.isDigit = true) : c ≠ '/' := by
  rintro rfl
  exact absurd h (by decide)

theorem isNameChar_isRepoChar (c : Char) (h : isNameChar c = true) : isRepoChar c = true := by
  simp only [isNameChar, Bool.or_eq_true] at h
  simp only [isRepoChar, Bool.or_eq_true, Char.isAlpha]
  rcases h with ((((h | h) | h) | h) | h)
  · exact Or.inl (Or.inl (Or.inl (Or.inl (Or.inr h))))
  · exact Or.inl (Or.inl (Or.inl (Or.inr h)))
  · exact Or.inl (Or.inr h)
  · exact Or.inr h
  · exact Or.inl (Or.inl (Or.inr h))

theorem takeWhile_cons_false (p : Char → Bool) (c : Char) (l : List Char) (h : p c = false) :
    (c :: l).takeWhile p = [] := by
  simp [List.takeWhile, h]

theorem dropWhile_cons_false (p : Char → Bool) (c : Char) (l : List Char) (h : p c = false) :
    (c :: l).dropWhile p = c :: l := by
  simp [List.dropWhile, h]

theorem takeWhile_all_append (p : Char → Bool) (l₁ l₂ : List Char) (h : l₁.all p = true) :
    (l₁ ++ l₂).takeWhile p = l₁ ++ l₂.takeWhile p := by
  induction l₁ with
  | nil => simp
  | cons c cs ih =>
    simp only [List.all_cons, Bool.and_eq_true] at h
    simp [List.takeWhile, h.1, ih h.2]

theorem dropWhile_all_append (p : Char → Bool) (l₁ l₂ : List Char) (h : l₁.all p = true) :
    (l₁ ++ l₂).dropWhile p = l₂.dropWhile p := by
  induction l₁ with
  | nil => simp
  | cons c cs ih =>
    simp only [List.all_cons, Bool.and_eq_true] at h
    simp [List.dropWhile, h.1, ih h.2]

theorem tryLens_pos_some {α : Type} (f : Nat → Option α) (n : Nat) (r : α)
    (hn : 0 < n) (h : f n = some r) : tryLens f n = some r := by
  cases n with
  | zero => omega
  | succ m => simp [tryLens, h]

theorem tryLens_none {α : Type} (f : Nat → Option α) (n : Nat)
    (h : ∀ k, 1 ≤ k → k ≤ n → f k = none) : tryLens f n = none := by
  induction n with
  | zero => rfl
  | succ m ih =>
    have hm : f (m + 1) = none := h (m + 1) (by omega) (by omega)
    simp only [tryLens, hm]
    exact ih fun k h1 h2 => h k h1 (by omega)

theorem drop_lt_cons {α : Type} (l : List α) (n : Nat) (h : n < l.length) :
    ∃ c cs, l.drop n = c :: cs ∧ c ∈ l := by
  cases hd : l.drop n with
  | nil =>
    have := List.length_drop n l
    rw [hd] at this
    simp at this
    omega
  | cons c cs =>
    exact ⟨c, cs, rfl, List.drop_subset n l (hd ▸ List.mem_cons_self c cs)⟩

theorem matchTagEnd_cons_ne (c : Char) (t : List Char) (h : c ≠ ':') :
    matchTagEnd (c :: t) = none := by
  simp only [matchTagEnd]
  rw [if_neg]
  rintro ⟨rfl, -⟩
  exact h rfl

theorem matchTagEnd_good (t : List Char) (h1 : t ≠ []) (h2 : t.all isTagChar = true)
    (h3 : t.length ≤ 127) : matchTagEnd (':' :: t) = some (some t) := by
  simp [matchTagEnd, h1, h2, h3]

theorem matchTagEnd_long (t : List Char) (h : 128 ≤ t.length) :
    matchTagEnd (':' :: t) = none := by
  simp only [matchTagEnd]
  rw [if_neg]
  rintro ⟨-, -, -, h4⟩
  omega

theorem matchTagEnd_not_all (c : Char) (t : List Char) (h : t.all isTagChar = false) :
    matchTagEnd (c :: t) = none := by
  simp only [matchTagEnd]
  rw [if_neg]
  rintro ⟨-, -, h3, -⟩
  rw [h] at h3
  exact Bool.false_ne_true h3

theorem nameAttempt_none (rest : List Char) (len : Nat) (c : Char) (cs : List Char)
    (hd : rest.drop len = c :: cs) (hc1 : c ≠ ':') (hc2 : c ≠ '/') :
    nameAttempt rest len = none := by
  simp [nameAttempt, trySecondSeg, hd, hc2, matchTagEnd_cons_ne c cs hc1]

theorem all_takeWhile (p : Char → Bool) (l : List Char) : (l.takeWhile p).all p = true := by
  induction l with
  | nil => rfl
  | cons c cs ih =>
    cases h : p c with
    | true => simp [List.takeWhile, h, ih]
    | false => simp [List.takeWhile, h]

theorem all_of_dropWhile_nil (p : Char → Bool) (l : List Char) (h : l.dropWhile p = []) :
    l.all p = true := by
  have hsplit := List.takeWhile_append_dropWhile (p := p) (l := l)
  rw [h, List.append_nil] at hsplit
  rw [← hsplit]
  exact all_takeWhile p l

theorem dropWhile_head_false (p : Char → Bool) (l : List Char) (c : Char) (cs : List Char)
    (h : l.dropWhile p = c :: cs) : p c = false := by
  induction l with
  | nil => simp [List.dropWhile] at h
  | cons a as ih =>
    cases hpa : p a with
    | true =>
      simp [List.dropWhile, hpa] at h
      exact ih h
    | false =>
      rw [dropWhile_cons_false _ _ _ hpa] at h
      injection h with h1 _
      exact h1 ▸ hpa

theorem all_name_all_repo (l : List Char) (h : l.all isNameChar = true) :
    l.all isRepoChar = true := by
  rw [List.all_eq_true] at h ⊢
  exact fun c hc => isNameChar_isRepoChar c (h c hc)

theorem takeWhile_name_shape (tp : List Char) (htp : tp = [] ∨ ∃ t, tp = ':' :: t) :
    tp.takeWhile isNameChar = [] := by
  rcases htp with rfl | ⟨t, rfl⟩
  · rfl
  · exact takeWhile_cons_false _ _ _ (by decide)

/-- Any result of the name attempt at the full greedy length determines
the name match: earlier (shorter) greedy splits always fail because the
character they leave at the front of the rest is a name character. -/
theorem matchName_split (seg1 X : List Char) (h1 : seg1 ≠ [])
    (h1a : seg1.all isNameChar = true) (hrunX : X.takeWhile isNameChar = [])
    (res : Option (List Char × Option (List Char)))
    (hNA : nameAttempt (seg1 ++ X) seg1.length = res) :
    matchName (seg1 ++ X) = res := by
  unfold matchName
  rw [takeWhile_all_append _ _ _ h1a, hrunX, List.append_nil]
  cases res with
  | some r => exact tryLens_pos_some _ _ _ (List.length_pos.mpr h1) hNA
  | none =>
    apply tryLens_none
    intro k hk1 hk2
    rcases Nat.lt_or_ge k seg1.length with hlt | hge
    · obtain ⟨c, cs, hdc, hcm⟩ := drop_lt_cons seg1 k hlt
      have hcn : isNameChar c = true := List.all_eq_true.mp h1a c hcm
      have hdk : (seg1 ++ X).drop k = c :: (cs ++ X) := by
        rw [List.drop_append_of_le_length (le_of_lt hlt), hdc]
        rfl
      exact nameAttempt_none _ _ c _ hdk (isNameChar_not_colon c hcn) (isNameChar_not_slash c hcn)
    · rw [le_antisymm hk2 hge]
      exact hNA

/-- The name match on a single name segment followed by the tag part. -/
theorem matchName_one (seg1 tp : List Char) (h1 : seg1 ≠ [])
    (h1a : seg1.all isNameChar = true) (htp : tp = [] ∨ ∃ t, tp = ':' :: t) :
    matchName (seg1 ++ tp) = (matchTagEnd tp).map (fun tg => (seg1, tg)) := by
  apply matchName_split seg1 tp h1 h1a (takeWhile_name_shape tp htp)
  have hts : trySecondSeg seg1 tp = none := by
    rcases htp with rfl | ⟨t, rfl⟩
    · rfl
    · simp only [trySecondSeg]
      rw [if_neg (by decide)]
  simp only [nameAttempt, List.take_left, List.drop_left, hts]

/-- The name match on two name segments followed by the tag part. -/
theorem matchName_two (seg1 s tp : List Char) (h1 : seg1 ≠ [])
    (h1a : seg1.all isNameChar = true) (hs1 : s ≠ []) (hsa : s.all isNameChar = true)
    (htp : tp = [] ∨ ∃ t, tp = ':' :: t) :
    matchName (seg1 ++ '/' :: (s ++ tp)) =
      (matchTagEnd tp).map (fun tg => (seg1 ++ '/' :: s, tg)) := by
  apply matchName_split seg1 ('/' :: (s ++ tp)) h1 h1a
    (takeWhile_cons_false _ _ _ (by decide))
  have hts : trySecondSeg seg1 ('/' :: (s ++ tp)) =
      (matchTagEnd tp).map (fun tg => (seg1 ++ '/' :: s, tg)) := by
    simp only [trySecondSeg]
    rw [if_pos trivial, takeWhile_all_append _ _ _ hsa, takeWhile_name_shape tp htp,
      List.append_nil]
    cases hmt : matchTagEnd tp with
    | some tg =>
      have hatt : secondSegAttempt seg1 (s ++ tp) s.length = some (seg1 ++ '/' :: s, tg) := by
        simp only [secondSegAttempt, List.drop_left, List.take_left, hmt, Option.map_some']
      simp only [Option.map_some']
      exact tryLens_pos_some _ _ _ (List.length_pos.mpr hs1) hatt
    | none =>
      simp only [Option.map_none']
      apply tryLens_none
      intro k hk1 hk2
      rcases Nat.lt_or_ge k s.length with hlt | hge
      · obtain ⟨c, cs, hdc, hcm⟩ := drop_lt_cons s k hlt
        have hcn : isNameChar c = true := List.all_eq_true.mp hsa c hcm
        have hdk : (s ++ tp).drop k = c :: (cs ++ tp) := by
          rw [List.drop_append_of_le_length (le_of_lt hlt), hdc]
          rfl
        simp [secondSegAttempt, hdk, matchTagEnd_cons_ne c _ (isNameChar_not_colon c hcn)]
      · have hke : k = s.length := le_antisymm hk2 hge
        simp [secondSegAttempt, hke, List.drop_left, hmt]
  cases hmt : matchTagEnd tp with
  | some tg =>
    rw [hmt] at hts
    simp only [nameAttempt, List.take_left, List.drop_left, hts, Option.map_some']
  | none =>
    rw [hmt] at hts
    simp only [Option.map_none'] at hts
    simp only [nameAttempt, List.take_left, List.drop_left, hts, Option.map_none',
      matchTagEnd_cons_ne '/' _ (by decide : ('/' : Char) ≠ ':')]

/-- The name match fails on a name-character run followed by a character
that can start neither the second segment, the tag, nor the end. -/
theorem matchName_none_shape (x : List Char) (c : Char) (w : List Char)
    (hxa : x.all isNameChar = true) (hc : isNameChar c = false)
    (hc1 : c ≠ ':') (hc2 : c ≠ '/') :
    matchName (x ++ c :: w) = none := by
  unfold matchName
  rw [takeWhile_all_append _ _ _ hxa, takeWhile_cons_false _ _ _ hc, List.append_nil]
  apply tryLens_none
  intro k hk1 hk2
  rcases Nat.lt_or_ge k x.length with hlt | hge
  · obtain ⟨d, ds, hdc, hdm⟩ := drop_lt_cons x k hlt
    have hdn : isNameChar d = true := List.all_eq_true.mp hxa d hdm
    have hdk : (x ++ c :: w).drop k = d :: (ds ++ c :: w) := by
      rw [List.drop_append_of_le_length (le_of_lt hlt), hdc]
      rfl
    exact nameAttempt_none _ _ d _ hdk (isNameChar_not_colon d hdn) (isNameChar_not_slash d hdn)
  · have hke : k = x.length := le_antisymm hk2 hge
    have hdk : (x ++ c :: w).drop k = c :: w := by
      rw [hke, List.drop_left]
    exact nameAttempt_none _ _ c w hdk hc1 hc2

/-- The name match fails on three name segments: the name pattern admits
at most two. -/
theorem matchName_three (x y w : List Char) (hx : x ≠ []) (hxa : x.all isNameChar = true)
    (hy : y ≠ []) (hya : y.all isNameChar = true) :
    matchName (x ++ '/' :: (y ++ '/' :: w)) = none := by
  apply matchName_split x ('/' :: (y ++ '/' :: w)) hx hxa
    (takeWhile_cons_false _ _ _ (by decide))
  have hts : trySecondSeg x ('/' :: (y ++ '/' :: w)) = none := by
    simp only [trySecondSeg]
    rw [if_pos trivial, takeWhile_all_append _ _ _ hya,
      takeWhile_cons_false _ _ _ (by decide : isNameChar '/' = false), List.append_nil]
    apply tryLens_none
    intro k hk1 hk2
    rcases Nat.lt_or_ge k y.length with hlt | hge
    · obtain ⟨c, cs, hdc, hcm⟩ := drop_lt_cons y k hlt
      have hcn : isNameChar c = true := List.all_eq_true.mp hya c hcm
      have hdk : (y ++ '/' :: w).drop k = c :: (cs ++ '/' :: w) := by
        rw [List.drop_append_of_le_length (le_of_lt hlt), hdc]
        rfl
      simp [secondSegAttempt, hdk, matchTagEnd_cons_ne c _ (isNameChar_not_colon c hcn)]
    · have hke : k = y.length := le_antisymm hk2 hge
      simp [secondSegAttempt, hke, List.drop_left,
        matchTagEnd_cons_ne '/' w (by decide : ('/' : Char) ≠ ':')]
  simp only [nameAttempt, List.take_left, List.drop_left, hts,
    matchTagEnd_cons_ne '/' _ (by decide : ('/' : Char) ≠ ':'), Option.map_none']

/-- The name match fails on a name run followed by `':'` and a non-tag
remainder. -/
theorem matchName_colon_bad (x u : List Char) (hx : x ≠ []) (hxa : x.all isNameChar = true)
    (hbad : u.all isTagChar = false) :
    matchName (x ++ ':' :: u) = none := by
  apply matchName_split x (':' :: u) hx hxa (takeWhile_cons_false _ _ _ (by decide))
  have hts : trySecondSeg x (':' :: u) = none := by
    simp only [trySecondSeg]
    rw [if_neg (by decide)]
  simp only [nameAttempt, List.take_left, List.drop_left, hts,
    matchTagEnd_not_all ':' u hbad, Option.map_none']

theorem matchAfterRepo_nonslash (c : Char) (t : List Char) (h : c ≠ '/') :
    matchAfterRepo (c :: t) = matchName (c :: t) := by
  simp only [matchAfterRepo]
  rw [if_neg h]

theorem matchAfterRepo_slash (t : List Char) : matchAfterRepo ('/' :: t) = matchName t := by
  simp only [matchAfterRepo]
  rw [if_pos trivial]
  cases h : matchName t with
  | some r => rfl
  | none =>
    unfold matchName
    rw [takeWhile_cons_false _ _ _ (by decide : isNameChar '/' = false)]
    rfl

theorem lookahead_nil : lookaheadTwoSegs [] = false := rfl

theorem lookahead_cons_ne (c : Char) (t : List Char) (h : c ≠ '/') :
    lookaheadTwoSegs (c :: t) = false := by
  simp only [lookaheadTwoSegs]
  rw [if_neg h]

theorem lookahead_true_two (a : List Char) (e : Char) (w : List Char)
    (ha : a ≠ []) (haa : a.all isNameChar = true) (he : isNameChar e = true) :
    lookaheadTwoSegs ('/' :: (a ++ '/' :: e :: w)) = true := by
  simp only [lookaheadTwoSegs]
  rw [if_pos trivial, takeWhile_all_append _ _ _ haa,
    takeWhile_cons_false _ _ _ (by decide : isNameChar '/' = false), List.append_nil,
    dropWhile_all_append _ _ _ haa,
    dropWhile_cons_false _ _ _ (by decide : isNameChar '/' = false)]
  cases a with
  | nil => exact absurd rfl ha
  | cons a0 as => simp [he]

theorem lookahead_false_shape (a x : List Char) (haa : a.all isNameChar = true)
    (hx : x = [] ∨ ∃ t, x = ':' :: t) :
    lookaheadTwoSegs ('/' :: (a ++ x)) = false := by
  simp only [lookaheadTwoSegs]
  rw [if_pos trivial, takeWhile_all_append _ _ _ haa, takeWhile_name_shape x hx,
    List.append_nil, dropWhile_all_append _ _ _ haa]
  rcases hx with rfl | ⟨t, rfl⟩
  · cases a <;> rfl
  · rw [dropWhile_cons_false _ _ _ (by decide : isNameChar ':' = false)]
    cases a with
    | nil => rfl
    | cons a0 as =>
      cases t with
      | nil => rfl
      | cons t0 ts => simp

theorem repoAttempt_none_head (s : List Char) (len : Nat) (c : Char) (cs : List Char)
    (hd : s.drop len = c :: cs) (h1 : c ≠ ':') (h2 : c ≠ '/') : repoAttempt s len = none := by
  have hpa : repoPortAlt s len = none := by
    simp only [repoPortAlt, hd]
    rw [if_neg h1]
  simp only [repoAttempt, hpa, hd, lookahead_cons_ne c cs h2]
  rfl

theorem repoAttempt_none_nil (s : List Char) (len : Nat) (hd : s.drop len = []) :
    repoAttempt s len = none := by
  have hpa : repoPortAlt s len = none := by
    simp only [repoPortAlt, hd]
  simp only [repoAttempt, hpa, hd, lookahead_nil]
  rfl

theorem repoAttempt_none_colon (s : List Char) (len : Nat) (t : List Char)
    (hd : s.drop len = ':' :: t) (hla : ∀ k, lookaheadTwoSegs (t.drop k) = false) :
    repoAttempt s len = none := by
  have hpa : repoPortAlt s len = none := by
    simp only [repoPortAlt, hd]
    rw [if_pos trivial]
    apply tryLens_none
    intro k hk1 hk2
    simp [portAttempt, hla k]
  simp only [repoAttempt, hpa, hd, lookahead_cons_ne ':' t (by decide)]
  rfl

theorem repoAttempt_none_slash (s : List Char) (len : Nat) (u : List Char)
    (hd : s.drop len = '/' :: u) (hla : lookaheadTwoSegs ('/' :: u) = false) :
    repoAttempt s len = none := by
  have hpa : repoPortAlt s len = none := by
    simp only [repoPortAlt, hd]
    rw [if_neg (by decide)]
  simp only [repoAttempt, hpa, hd, hla]
  rfl

theorem tag_shape_weaken (tp : List Char)
    (htp : tp = [] ∨ ∃ t, tp = ':' :: t ∧ t.all isTagChar = true) :
    tp = [] ∨ ∃ t, tp = ':' :: t := by
  rcases htp with rfl | ⟨t, rfl, -⟩
  · exact Or.inl rfl
  · exact Or.inr ⟨t, rfl⟩

theorem takeWhile_repo_tag_shape (tp : List Char)
    (htp : tp = [] ∨ ∃ t, tp = ':' :: t) : tp.takeWhile isRepoChar = [] := by
  rcases htp with rfl | ⟨t, rfl⟩
  · rfl
  · exact takeWhile_cons_false _ _ _ (by decide)

/-- `IMAGE_PATTERN` on `name[:tag]` (single name segment, no registry):
the repository alternative fails everywhere (no two-segment lookahead
can hold), so the match reduces to the name/tag pattern. -/
theorem matchImage_nohost_one (seg1 tp : List Char) (h1 : seg1 ≠ [])
    (h1a : seg1.all isNameChar = true)
    (htp : tp = [] ∨ ∃ t, tp = ':' :: t ∧ t.all isTagChar = true) :
    matchImage (seg1 ++ tp) = (matchTagEnd tp).map (fun tg => (none, seg1, tg)) := by
  have htp' := tag_shape_weaken tp htp
  have hrun : (seg1 ++ tp).takeWhile isRepoChar = seg1 := by
    rw [takeWhile_all_append _ _ _ (all_name_all_repo _ h1a),
      takeWhile_repo_tag_shape tp htp', List.append_nil]
  have halt : tryLens (repoAttempt (seg1 ++ tp)) seg1.length = none := by
    apply tryLens_none
    intro k hk1 hk2
    rcases Nat.lt_or_ge k seg1.length with hlt | hge
    · obtain ⟨c, cs, hdc, hcm⟩ := drop_lt_cons seg1 k hlt
      have hcn : isNameChar c = true := List.all_eq_true.mp h1a c hcm
      have hdk : (seg1 ++ tp).drop k = c :: (cs ++ tp) := by
        rw [List.drop_append_of_le_length (le_of_lt hlt), hdc]
        rfl
      exact repoAttempt_none_head _ _ c _ hdk (isNameChar_not_colon c hcn)
        (isNameChar_not_slash c hcn)
    · have hdk : (seg1 ++ tp).drop k = tp := by
        rw [le_antisymm hk2 hge, List.drop_left]
      rcases htp with rfl | ⟨t, rfl, hta⟩
      · exact repoAttempt_none_nil _ _ hdk
      · apply repoAttempt_none_colon _ _ t hdk
        intro j
        rcases Nat.lt_or_ge j t.length with hjl | hjg
        · obtain ⟨c, cs, hdc, hcm⟩ := drop_lt_cons t j hjl
          rw [hdc]
          exact lookahead_cons_ne c cs (isTagChar_not_slash c (List.all_eq_true.mp hta c hcm))
        · rw [List.drop_eq_nil_of_le hjg]
          exact lookahead_nil
  obtain ⟨c, cs, rfl⟩ : ∃ c cs, seg1 = c :: cs := by
    cases seg1 with
    | nil => exact absurd rfl h1
    | cons c cs => exact ⟨c, cs, rfl⟩
  have hcn : isNameChar c = true := by
    rw [List.all_cons, Bool.and_eq_true] at h1a
    exact h1a.1
  simp only [matchImage, hrun, halt]
  rw [show (c :: cs) ++ tp = c :: (cs ++ tp) from rfl,
    matchAfterRepo_nonslash c _ (isNameChar_not_slash c hcn),
    show c :: (cs ++ tp) = (c :: cs) ++ tp from rfl,
    matchName_one _ _ h1 h1a htp']
  cases matchTagEnd tp <;> rfl

/-- `IMAGE_PATTERN` on `name1/name2[:tag]` (two name segments, no
registry): the lookahead needs two further segments after the candidate
repository run, so the repository alternative fails and the two-segment
name is matched. -/
theorem matchImage_nohost_two (seg1 s tp : List Char) (h1 : seg1 ≠ [])
    (h1a : seg1.all isNameChar = true) (hs1 : s ≠ []) (hsa : s.all isNameChar = true)
    (htp : tp = [] ∨ ∃ t, tp = ':' :: t ∧ t.all isTagChar = true) :
    matchImage (seg1 ++ '/' :: (s ++ tp)) =
      (matchTagEnd tp).map (fun tg => (none, seg1 ++ '/' :: s, tg)) := by
  have htp' := tag_shape_weaken tp htp
  have hrun : (seg1 ++ '/' :: (s ++ tp)).takeWhile isRepoChar = seg1 := by
    rw [takeWhile_all_append _ _ _ (all_name_all_repo _ h1a),
      takeWhile_cons_false _ _ _ (by decide : isRepoChar '/' = false), List.append_nil]
  have halt : tryLens (repoAttempt (seg1 ++ '/' :: (s ++ tp))) seg1.length = none := by
    apply tryLens_none
    intro k hk1 hk2
    rcases Nat.lt_or_ge k seg1.length with hlt | hge
    · obtain ⟨c, cs, hdc, hcm⟩ := drop_lt_cons seg1 k hlt
      have hcn : isNameChar c = true := List.all_eq_true.mp h1a c hcm
      have hdk : (seg1 ++ '/' :: (s ++ tp)).drop k = c :: (cs ++ '/' :: (s ++ tp)) := by
        rw [List.drop_append_of_le_length (le_of_lt hlt), hdc]
        rfl
      exact repoAttempt_none_head _ _ c _ hdk (isNameChar_not_colon c hcn)
        (isNameChar_not_slash c hcn)
    · have hdk : (seg1 ++ '/' :: (s ++ tp)).drop k = '/' :: (s ++ tp) := by
        rw [le_antisymm hk2 hge, List.drop_left]
      exact repoAttempt_none_slash _ _ _ hdk (lookahead_false_shape s tp hsa htp')
  obtain ⟨c, cs, rfl⟩ : ∃ c cs, seg1 = c :: cs := by
    cases seg1 with
    | nil => exact absurd rfl h1
    | cons c cs => exact ⟨c, cs, rfl⟩
  have hcn : isNameChar c = true := by
    rw [List.all_cons, Bool.and_eq_true] at h1a
    exact h1a.1
  simp only [matchImage, hrun, halt]
  rw [show (c :: cs) ++ '/' :: (s ++ tp) = c :: (cs ++ '/' :: (s ++ tp)) from rfl,
    matchAfterRepo_nonslash c _ (isNameChar_not_slash c hcn),
    show c :: (cs ++ '/' :: (s ++ tp)) = (c :: cs) ++ '/' :: (s ++ tp) from rfl,
    matchName_two _ _ _ h1 h1a hs1 hsa htp']
  cases matchTagEnd tp <;> rfl

/-- `IMAGE_PATTERN` on `host[:port]/name1/name2[:tag]`: the greedy
repository run is exactly `host`, the lookahead sees the two name
segments, and the optional `:port` digits are consumed greedily into the
repository group. -/
theorem matchImage_host (host : List Char) (port : Option (List Char)) (seg1 s tp : List Char)
    (hh : host ≠ []) (hha : host.all isRepoChar = true)
    (hport : ∀ p, port = some p → p ≠ [] ∧ p.all Char.isDigit = true)
    (h1 : seg1 ≠ []) (h1a : seg1.all isNameChar = true)
    (hs1 : s ≠ []) (hsa : s.all isNameChar = true)
    (htp : tp = [] ∨ ∃ t, tp = ':' :: t ∧ t.all isTagChar = true) :
    matchImage (host ++ (portPart port ++ '/' :: (seg1 ++ '/' :: (s ++ tp)))) =
      (matchTagEnd tp).map
        (fun tg => (some (host ++ portPart port), seg1 ++ '/' :: s, tg)) := by
  have htp' := tag_shape_weaken tp htp
  have hlook : lookaheadTwoSegs ('/' :: (seg1 ++ '/' :: (s ++ tp))) = true := by
    obtain ⟨e, srest, hse⟩ : ∃ e srest, s = e :: srest := by
      cases s with
      | nil => exact absurd rfl hs1
      | cons e srest => exact ⟨e, srest, rfl⟩
    have he : isNameChar e = true := by
      have hsa' := hsa
      rw [hse, List.all_cons, Bool.and_eq_true] at hsa'
      exact hsa'.1
    rw [hse]
    exact lookahead_true_two seg1 e (srest ++ tp) h1 h1a he
  have hMAR : matchAfterRepo ('/' :: (seg1 ++ '/' :: (s ++ tp))) =
      (matchTagEnd tp).map (fun tg => (seg1 ++ '/' :: s, tg)) := by
    rw [matchAfterRepo_slash, matchName_two seg1 s tp h1 h1a hs1 hsa htp']
  have hXrun : (portPart port ++ '/' :: (seg1 ++ '/' :: (s ++ tp))).takeWhile
      isRepoChar = [] := by
    cases port with
    | none => exact takeWhile_cons_false _ _ _ (by decide : isRepoChar '/' = false)
    | some p => exact takeWhile_cons_false _ _ _ (by decide : isRepoChar ':' = false)
  have hrun : ((host ++ (portPart port ++ '/' :: (seg1 ++ '/' :: (s ++ tp))))).takeWhile
      isRepoChar = host := by
    rw [takeWhile_all_append _ _ _ hha, hXrun, List.append_nil]
  have hdropF : (host ++ (portPart port ++ '/' :: (seg1 ++ '/' :: (s ++ tp)))).drop
      host.length = portPart port ++ '/' :: (seg1 ++ '/' :: (s ++ tp)) :=
    List.drop_left host _
  have htakeF : (host ++ (portPart port ++ '/' :: (seg1 ++ '/' :: (s ++ tp)))).take
      host.length = host := List.take_left host _
  have kAtt : repoAttempt (host ++ (portPart port ++ '/' :: (seg1 ++ '/' :: (s ++ tp))))
      host.length =
      (matchTagEnd tp).map
        (fun tg => (some (host ++ portPart port), seg1 ++ '/' :: s, tg)) := by
    cases port with
    | none =>
      have hdropF' : (host ++ '/' :: (seg1 ++ '/' :: (s ++ tp))).drop
          host.length = '/' :: (seg1 ++ '/' :: (s ++ tp)) := List.drop_left host _
      have htakeF' : (host ++ '/' :: (seg1 ++ '/' :: (s ++ tp))).take
          host.length = host := List.take_left host _
      have hpa : repoPortAlt (host ++ '/' :: (seg1 ++ '/' :: (s ++ tp)))
          host.length = none := by
        simp only [repoPortAlt, hdropF']
        rw [if_neg (by decide)]
      simp only [portPart, List.nil_append]
      simp only [repoAttempt, hpa, hdropF', hlook, if_true, htakeF', hMAR]
      cases matchTagEnd tp <;> simp
    | some p =>
      obtain ⟨hp1, hp2⟩ := hport p rfl
      have hdropF' : (host ++ (portPart (some p) ++ '/' :: (seg1 ++ '/' :: (s ++ tp)))).drop
          host.length = ':' :: (p ++ '/' :: (seg1 ++ '/' :: (s ++ tp))) := hdropF
      have hdrun : (p ++ '/' :: (seg1 ++ '/' :: (s ++ tp))).takeWhile Char.isDigit = p := by
        rw [takeWhile_all_append _ _ _ hp2,
          takeWhile_cons_false _ _ _ (by decide : Char.isDigit '/' = false), List.append_nil]
      have hattp : portAttempt
          ((host ++ (portPart (some p) ++ '/' :: (seg1 ++ '/' :: (s ++ tp)))).take host.length)
          (p ++ '/' :: (seg1 ++ '/' :: (s ++ tp))) p.length =
          (matchTagEnd tp).map
            (fun tg => (some (host ++ ':' :: p), seg1 ++ '/' :: s, tg)) := by
        simp only [portAttempt, List.drop_left, List.take_left, hlook, if_true, htakeF, hMAR]
        cases matchTagEnd tp <;> rfl
      cases hmt : matchTagEnd tp with
      | some tg =>
        rw [hmt] at hattp
        simp only [Option.map_some'] at hattp
        have hpa : repoPortAlt
            (host ++ (portPart (some p) ++ '/' :: (seg1 ++ '/' :: (s ++ tp))))
            host.length = some (some (host ++ ':' :: p), seg1 ++ '/' :: s, tg) := by
          simp only [repoPortAlt, hdropF']
          rw [if_pos trivial, hdrun]
          exact tryLens_pos_some _ _ _ (List.length_pos.mpr hp1) hattp
        simp only [repoAttempt, hpa, Option.map_some']
        rfl
      | none =>
        rw [hmt] at hattp
        simp only [Option.map_none'] at hattp
        have hpa : repoPortAlt
            (host ++ (portPart (some p) ++ '/' :: (seg1 ++ '/' :: (s ++ tp))))
            host.length = none := by
          simp only [repoPortAlt, hdropF']
          rw [if_pos trivial, hdrun]
          apply tryLens_none
          intro k hk1 hk2
          rcases Nat.lt_or_ge k p.length with hlt | hge
          · obtain ⟨c, cs, hdc, hcm⟩ := drop_lt_cons p k hlt
            have hcd : c.isDigit = true := List.all_eq_true.mp hp2 c hcm
            have hdk : (p ++ '/' :: (seg1 ++ '/' :: (s ++ tp))).drop k
                = c :: (cs ++ '/' :: (seg1 ++ '/' :: (s ++ tp))) := by
              rw [List.drop_append_of_le_length (le_of_lt hlt), hdc]
              rfl
            simp [portAttempt, hdk, lookahead_cons_ne c _ (isDigit_not_slash c hcd)]
          · rw [le_antisymm hk2 hge]
            exact hattp
        simp only [repoAttempt, hpa, hdropF',
          lookahead_cons_ne ':' _ (by decide : (':' : Char) ≠ '/'), Option.map_none']
        rfl
  cases hmt : matchTagEnd tp with
  | some tg =>
    rw [hmt] at kAtt
    simp only [Option.map_some'] at kAtt
    unfold matchImage
    rw [hrun, tryLens_pos_some _ _ _ (List.length_pos.mpr hh) kAtt]
    rfl
  | none =>
    rw [hmt] at kAtt
    simp only [Option.map_none'] at kAtt
    have halt : tryLens
        (repoAttempt (host ++ (portPart port ++ '/' :: (seg1 ++ '/' :: (s ++ tp)))))
        host.length = none := by
      apply tryLens_none
      intro k hk1 hk2
      rcases Nat.lt_or_ge k host.length with hlt | hge
      · obtain ⟨c, cs, hdc, hcm⟩ := drop_lt_cons host k hlt
        have hcr : isRepoChar c = true := List.all_eq_true.mp hha c hcm
        have hdk : (host ++ (portPart port ++ '/' :: (seg1 ++ '/' :: (s ++ tp)))).drop k
            = c :: (cs ++ (portPart port ++ '/' :: (seg1 ++ '/' :: (s ++ tp)))) := by
          rw [List.drop_append_of_le_length (le_of_lt hlt), hdc]
          rfl
        exact repoAttempt_none_head _ _ c _ hdk (isRepoChar_not_colon c hcr)
          (isRepoChar_not_slash c hcr)
      · rw [le_antisymm hk2 hge]
        exact kAtt
    have hmn : matchName (host ++ (portPart port ++ '/' :: (seg1 ++ '/' :: (s ++ tp))))
        = none := by
      cases hdw : host.dropWhile isNameChar with
      | nil =>
        have hhn : host.all isNameChar = true := all_of_dropWhile_nil _ _ hdw
        cases port with
        | none => exact matchName_three host seg1 (s ++ tp) hh hhn h1 h1a
        | some p =>
          have hbad : (p ++ '/' :: (seg1 ++ '/' :: (s ++ tp))).all isTagChar = false := by
            cases hb : (p ++ '/' :: (seg1 ++ '/' :: (s ++ tp))).all isTagChar with
            | false => rfl
            | true =>
              have := List.all_eq_true.mp hb '/'
                (List.mem_append_right _ (List.mem_cons_self _ _))
              exact absurd this (by decide)
          exact matchName_colon_bad host _ hh hhn hbad
      | cons c0 cs0 =>
        have htw : (host.takeWhile isNameChar).all isNameChar = true :=
          all_takeWhile isNameChar host
        have hc0f : isNameChar c0 = false := dropWhile_head_false _ _ _ _ hdw
        have hsplit : host = host.takeWhile isNameChar ++ c0 :: cs0 := by
          rw [← hdw]
          exact (List.takeWhile_append_dropWhile (p := isNameChar) (l := host)).symm
        have hc0mem : c0 ∈ host := by
          rw [hsplit]
          exact List.mem_append_right _ (List.mem_cons_self _ _)
        have hc0r : isRepoChar c0 = true := List.all_eq_true.mp hha c0 hc0mem
        have heq : host ++ (portPart port ++ '/' :: (seg1 ++ '/' :: (s ++ tp)))
            = host.takeWhile isNameChar
              ++ c0 :: (cs0 ++ (portPart port ++ '/' :: (seg1 ++ '/' :: (s ++ tp)))) := by
          conv_lhs => rw [hsplit]
          simp [List.append_assoc]
        rw [heq]
        exact matchName_none_shape _ c0 _ htw hc0f (isRepoChar_not_colon c0 hc0r)
          (isRepoChar_not_slash c0 hc0r)
    obtain ⟨hc, hcs, rfl⟩ : ∃ hc hcs, host = hc :: hcs := by
      cases host with
      | nil => exact absurd rfl hh
      | cons hc hcs => exact ⟨hc, hcs, rfl⟩
    have hhcr : isRepoChar hc = true := by
      rw [List.all_cons, Bool.and_eq_true] at hha
      exact hha.1
    simp only [matchImage, hrun, halt]
    rw [show (hc :: hcs) ++ (portPart port ++ '/' :: (seg1 ++ '/' :: (s ++ tp)))
        = hc :: (hcs ++ (portPart port ++ '/' :: (seg1 ++ '/' :: (s ++ tp)))) from rfl,
      matchAfterRepo_nonslash hc _ (isRepoChar_not_slash hc hhcr),
      show hc :: (hcs ++ (portPart port ++ '/' :: (seg1 ++ '/' :: (s ++ tp))))
        = (hc :: hcs) ++ (portPart port ++ '/' :: (seg1 ++ '/' :: (s ++ tp))) from rfl,
      hmn]
    rfl

theorem data_asString (l : List Char) : (l.asString).data = l := rfl

theorem string_data_eq (a b : String) (h : a.data = b.data) : a = b := by
  cases a
  cases b
  exact congrArg String.mk h

theorem asString_ne_empty (l : List Char) (h : l ≠ []) : l.asString ≠ "" :=
  fun he => h (congrArg String.data he)

/-- The `IMAGE_PATTERN` match on any canonically assembled image string,
for an arbitrary (possibly overlong) tag made of tag characters. -/
theorem matchImage_build (host port : Option (List Char)) (seg1 : List Char)
    (seg2 : Option (List Char)) (tag : Option (List Char))
    (hseg1 : seg1 ≠ [] ∧ seg1.all isNameChar = true)
    (hseg2 : ∀ s, seg2 = some s → s ≠ [] ∧ s.all isNameChar = true)
    (hhost : ∀ h, host = some h → h ≠ [] ∧ h.all isRepoChar = true ∧ seg2 ≠ none)
    (hport : ∀ p, port = some p → p ≠ [] ∧ p.all Char.isDigit = true ∧ host ≠ none)
    (htags : ∀ t, tag = some t → t.all isTagChar = true) :
    matchImage (build_image_data host port seg1 seg2 tag) =
      (matchTagEnd (tagPartOf tag)).map
        (fun tg => (host.map (fun h => h ++ portPart port), seg1 ++ seg2Part seg2, tg)) := by
  have htpshape : tagPartOf tag = [] ∨ ∃ t, tagPartOf tag = ':' :: t ∧ t.all isTagChar = true := by
    cases tag with
    | none => exact Or.inl rfl
    | some t => exact Or.inr ⟨t, rfl, htags t rfl⟩
  cases host with
  | none =>
    cases seg2 with
    | none =>
      have hb : build_image_data none port seg1 none tag = seg1 ++ tagPartOf tag := by
        simp [build_image_data, seg2Part]
      rw [hb, matchImage_nohost_one seg1 _ hseg1.1 hseg1.2 htpshape]
      simp [seg2Part]
    | some s =>
      have hb : build_image_data none port seg1 (some s) tag
          = seg1 ++ '/' :: (s ++ tagPartOf tag) := by
        simp [build_image_data, seg2Part, List.append_assoc]
      rw [hb, matchImage_nohost_two seg1 s _ hseg1.1 hseg1.2 (hseg2 s rfl).1
        (hseg2 s rfl).2 htpshape]
      simp [seg2Part]
  | some h =>
    obtain ⟨s, rfl⟩ : ∃ s, seg2 = some s := by
      obtain ⟨-, -, hne⟩ := hhost h rfl
      cases seg2 with
      | none => exact absurd rfl hne
      | some s => exact ⟨s, rfl⟩
    have hb : build_image_data (some h) port seg1 (some s) tag
        = h ++ (portPart port ++ '/' :: (seg1 ++ '/' :: (s ++ tagPartOf tag))) := by
      simp [build_image_data, seg2Part, List.append_assoc]
    obtain ⟨hh1, hh2, -⟩ := hhost h rfl
    have hport' : ∀ p, port = some p → p ≠ [] ∧ p.all Char.isDigit = true :=
      fun p hp => ⟨(hport p hp).1, (hport p hp).2.1⟩
    rw [hb, matchImage_host h port seg1 s _ hh1 hh2 hport' hseg1.1 hseg1.2
      (hseg2 s rfl).1 (hseg2 s rfl).2 htpshape]
    simp [seg2Part]

/-- C6: for every valid image string of the grammar's forms
`name1[/name2][:tag]` and `host[:port]/name1/name2[:tag]` (a registry is
only distinguishable from a plain name when two further `/`-separated
segments follow it), `parse_image` succeeds and reproduces exactly the
assembled registry and name, the tag defaulting to `"latest"` when
omitted; and `image_to_str` renders the parse result back to the same
string with the (possibly defaulted) tag spelled out verbatim. -/
theorem parse_render_roundtrip (host port : Option (List Char)) (seg1 : List Char)
    (seg2 : Option (List Char)) (tag : Option (List Char))
    (hseg1 : seg1 ≠ [] ∧ seg1.all isNameChar = true)
    (hseg2 : ∀ s, seg2 = some s → s ≠ [] ∧ s.all isNameChar = true)
    (hhost : ∀ h, host = some h → h ≠ [] ∧ h.all isRepoChar = true ∧ seg2 ≠ none)
    (hport : ∀ p, port = some p → p ≠ [] ∧ p.all Char.isDigit = true ∧ host ≠ none)
    (htag : ∀ t, tag = some t → t ≠ [] ∧ t.all isTagChar = true ∧ t.length ≤ 127) :
    parse_image (build_image_data host port seg1 seg2 tag).asString =
      some { registry := host.map (fun h => (h ++ portPart port).asString)
             name := (seg1 ++ seg2Part seg2).asString
             tag := (tag.getD "latest".data).asString }
    ∧ image_to_str { registry := host.map (fun h => (h ++ portPart port).asString)
                     name := (seg1 ++ seg2Part seg2).asString
                     tag := (tag.getD "latest".data).asString } =
      (build_image_data host port seg1 seg2 (some (tag.getD "latest".data))).asString := by
  have htags : ∀ t, tag = some t → t.all isTagChar = true := fun t ht => (htag t ht).2.1
  have hmt : matchTagEnd (tagPartOf tag) = some tag := by
    cases tag with
    | none => rfl
    | some t =>
      obtain ⟨ht1, ht2, ht3⟩ := htag t rfl
      exact matchTagEnd_good t ht1 ht2 ht3
  constructor
  · unfold parse_image
    rw [data_asString, matchImage_build host port seg1 seg2 tag hseg1 hseg2 hhost hport htags,
      hmt]
    cases host <;> cases tag <;> rfl
  · apply string_data_eq
    cases host with
    | none =>
      simp [image_to_str, build_image_data, seg2Part, tagPartOf, String.data_append,
        data_asString, List.append_assoc]
    | some h =>
      have hne : (h ++ portPart port).asString ≠ "" :=
        asString_ne_empty _ (by
          intro hnil
          exact (hhost h rfl).1 (List.append_eq_nil.mp hnil).1)
      simp [image_to_str, hne, build_image_data, seg2Part, tagPartOf, String.data_append,
        data_asString, List.append_assoc]

set_option maxRecDepth 8000 in
theorem parse_render_roundtrip_witness :
    parse_image "docker.example.io:8000/ns/app:latest" =
      some { registry := some "docker.example.io:8000", name := "ns/app", tag := "latest" }
    ∧ parse_image "alpine" = some { registry := none, name := "alpine", tag := "latest" } := by
  constructor
  · exact (parse_render_roundtrip (some "docker.example.io".data) (some "8000".data)
      "ns".data (some "app".data) (some "latest".data)
      ⟨by decide, by decide⟩
      (fun s hs => by cases hs; exact ⟨by decide, by decide⟩)
      (fun h hh => by cases hh; exact ⟨by decide, by decide, by simp⟩)
      (fun p hp => by cases hp; exact ⟨by decide, by decide, by simp⟩)
      (fun t ht => by cases ht; exact ⟨by decide, by decide, by decide⟩)).1
  · exact (parse_render_roundtrip none none "alpine".data none none
      ⟨by decide, by decide⟩
      (fun s hs => by cases hs)
      (fun h hh => by cases hh)
      (fun p hp => by cases hp)
      (fun t ht => by cases ht)).1

/-- C9: `parse_image` fails deterministically on the empty string; it
fails on every canonically assembled image string whose tag part exceeds
127 characters; and it succeeds (is total) on every well-formed image
string of the grammar. -/
theorem parse_malformed_total :
    parse_image "" = none
    ∧ (∀ host port : Option (List Char), ∀ seg1 : List Char, ∀ seg2 : Option (List Char),
        ∀ t : List Char,
        (seg1 ≠ [] ∧ seg1.all isNameChar = true) →
        (∀ s, seg2 = some s → s ≠ [] ∧ s.all isNameChar = true) →
        (∀ h, host = some h → h ≠ [] ∧ h.all isRepoChar = true ∧ seg2 ≠ none) →
        (∀ p, port = some p → p ≠ [] ∧ p.all Char.isDigit = true ∧ host ≠ none) →
        t.all isTagChar = true → 128 ≤ t.length →
        parse_image (build_image_data host port seg1 seg2 (some t)).asString = none)
    ∧ (∀ host port : Option (List Char), ∀ seg1 : List Char, ∀ seg2 : Option (List Char),
        ∀ tag : Option (List Char),
        (seg1 ≠ [] ∧ seg1.all isNameChar = true) →
        (∀ s, seg2 = some s → s ≠ [] ∧ s.all isNameChar = true) →
        (∀ h, host = some h → h ≠ [] ∧ h.all isRepoChar = true ∧ seg2 ≠ none) →
        (∀ p, port = some p → p ≠ [] ∧ p.all Char.isDigit = true ∧ host ≠ none) →
        (∀ t, tag = some t → t ≠ [] ∧ t.all isTagChar = true ∧ t.length ≤ 127) →
        (parse_image (build_image_data host port seg1 seg2 tag).asString).isSome = true) := by
  refine ⟨rfl, ?_, ?_⟩
  · intro host port seg1 seg2 t hseg1 hseg2 hhost hport hta hlen
    unfold parse_image
    rw [data_asString, matchImage_build host port seg1 seg2 (some t) hseg1 hseg2 hhost hport
      (fun t' ht' => by cases ht'; exact hta)]
    rw [show tagPartOf (some t) = ':' :: t from rfl, matchTagEnd_long t hlen]
    rfl
  · intro host port seg1 seg2 tag hseg1 hseg2 hhost hport htag
    unfold parse_image
    rw [data_asString, matchImage_build host port seg1 seg2 tag hseg1 hseg2 hhost hport
      (fun t ht => (htag t ht).2.1)]
    have hmt : matchTagEnd (tagPartOf tag) = some tag := by
      cases tag with
      | none => rfl
      | some t =>
        obtain ⟨ht1, ht2, ht3⟩ := htag t rfl
        exact matchTagEnd_good t ht1 ht2 ht3
    rw [hmt]
    rfl

set_option maxRecDepth 8000 in
theorem parse_malformed_total_witness :
    parse_image ("app:" ++ (List.replicate 128 'a').asString) = none := by
  have h := parse_malformed_total.2.1 none none "app".data none (List.replicate 128 'a')
    ⟨by decide, by decide⟩
    (fun s hs => by cases hs)
    (fun h hh => by cases hh)
    (fun p hp => by cases hp)
    (by decide) (by decide)
  exact h

theorem rolloutDone_iff (target : String) (desired : Nat) (onlyNew : Bool)
    (tasks : List (String × String)) :
    rolloutDone target desired onlyNew tasks = true ↔
      (tasks.countP (fun p => decide (p.2 = target)) = desired
        ∧ (onlyNew = true → tasks.length = desired)) := by
  cases onlyNew <;> simp [rolloutDone]

/-- C3: over any sequence of poll observations, the rollout waiter
terminates exactly at the first observation whose count of tasks on the
target definition equals the desired quantity and (when `--only-new` is
set) whose total task count equals it too, having slept `delay` once per
earlier observation; it runs past every observation that does not
satisfy the condition, and never terminates when no observation does. -/
theorem waiter_first_convergence (target : String) (desired : Nat) (onlyNew : Bool)
    (delay : Nat) (seq : List (List (String × String))) :
    (∀ t, wait_on_tasks target desired onlyNew delay seq = some t ↔
      ∃ i obs, seq[i]? = some obs
        ∧ (obs.countP (fun p => decide (p.2 = target)) = desired
            ∧ (onlyNew = true → obs.length = desired))
        ∧ (∀ j obs', j < i → seq[j]? = some obs' →
            ¬(obs'.countP (fun p => decide (p.2 = target)) = desired
               ∧ (onlyNew = true → obs'.length = desired)))
        ∧ t = delay * i)
    ∧ (wait_on_tasks target desired onlyNew delay seq = none ↔
        ∀ obs ∈ seq, ¬(obs.countP (fun p => decide (p.2 = target)) = desired
            ∧ (onlyNew = true → obs.length = desired))) := by
  induction seq with
  | nil =>
    constructor
    · intro t
      simp [wait_on_tasks]
    · simp [wait_on_tasks]
  | cons obs rest ih =>
    cases hd : rolloutDone target desired onlyNew obs with
    | true =>
      have hdp := (rolloutDone_iff target desired onlyNew obs).mp hd
      have hws : wait_on_tasks target desired onlyNew delay (obs :: rest) = some 0 := by
        simp [wait_on_tasks, hd]
      constructor
      · intro t
        constructor
        · intro hw
          rw [hws] at hw
          injection hw with hw0
          refine ⟨0, obs, by simp, hdp, fun j obs' hj _ => absurd hj (by omega), by omega⟩
        · rintro ⟨i, obs', hio, hdo, hprev, rfl⟩
          cases i with
          | zero =>
            rw [hws]
            simp
          | succ k =>
            exact absurd hdp (hprev 0 obs (by omega) (by simp))
      · constructor
        · intro hw
          rw [hws] at hw
          simp at hw
        · intro hall
          exact absurd hdp (hall obs (by simp))
    | false =>
      have hdp := (rolloutDone_iff target desired onlyNew obs).not.mp (by simp [hd])
      have hws : wait_on_tasks target desired onlyNew delay (obs :: rest) =
          (wait_on_tasks target desired onlyNew delay rest).map (fun t => t + delay) := by
        simp [wait_on_tasks, hd]
      constructor
      · intro t
        constructor
        · intro hw
          rw [hws] at hw
          obtain ⟨t', hw', rfl⟩ := Option.map_eq_some'.mp hw
          obtain ⟨i, obs', hio, hdo, hprev, rfl⟩ := (ih.1 t').mp hw'
          refine ⟨i + 1, obs', by simpa using hio, hdo, ?_, by ring⟩
          intro j obs'' hj hjo
          cases j with
          | zero =>
            simp at hjo
            subst hjo
            exact hdp
          | succ m =>
            simp at hjo
            exact hprev m obs'' (by omega) hjo
        · rintro ⟨i, obs', hio, hdo, hprev, rfl⟩
          cases i with
          | zero =>
            simp at hio
            subst hio
            exact absurd hdo hdp
          | succ k =>
            simp at hio
            have hw' := (ih.1 (delay * k)).mpr
              ⟨k, obs', hio, hdo, fun j obs'' hj hjo =>
                hprev (j + 1) obs'' (by omega) (by simpa using hjo), rfl⟩
            rw [hws, hw']
            simp only [Option.map_some', Nat.mul_succ]
      · constructor
        · intro hw
          rw [hws, Option.map_eq_none'] at hw
          intro obs' hmem
          rcases List.mem_cons.mp hmem with rfl | hmem'
          · exact hdp
          · exact (ih.2.mp hw) obs' hmem'
        · intro hall
          rw [hws, Option.map_eq_none']
          exact ih.2.mpr fun obs' hmem => hall obs' (List.mem_cons_of_mem _ hmem)

theorem waiter_first_convergence_witness :
    wait_on_tasks "new" 3 false 5
      [[("a", "old"), ("b", "old"), ("c", "old")],
       [("a", "old"), ("b", "new"), ("c", "new")],
       [("a", "new"), ("b", "new"), ("c", "new")]] = some 10 := by
  apply ((waiter_first_convergence "new" 3 false 5
    [[("a", "old"), ("b", "old"), ("c", "old")],
     [("a", "old"), ("b", "new"), ("c", "new")],
     [("a", "new"), ("b", "new"), ("c", "new")]]).1 10).mpr
  refine ⟨2, [("a", "new"), ("b", "new"), ("c", "new")], rfl, ⟨by decide, by simp⟩, ?_, by norm_num⟩
  intro j obs' hj hjo
  interval_cases j
  · simp at hjo
    subst hjo
    decide
  · simp at hjo
    subst hjo
    decide
